import Mathlib

/-!
Verification of the premium/file-delivery bot against its specification.

This file gives a shallow embedding, in Lean 4, of the pure logic of the
repository's Python source:

  * `database/database.py`  — the generic variable store (`SidDataBase`)
  * `plugins/prem.py`       — the premium subscription manager
  * `plugins/start.py`      — the start / access-gating / delivery flow
  * `argon/prem.py`         — the shortener settings time formatter

Modelling conventions:

  * Python `datetime` values are modelled as `Int` timestamps in seconds;
    `timedelta` arithmetic becomes ordinary integer arithmetic.  (Python's
    `timedelta.days` is floor division by 86400 and `.seconds` is the
    non-negative remainder within the day; in every branch in which the code
    performs this computation the difference is non-negative, where Lean's
    Euclidean `/` and `%` on `Int` agree with Python's floor semantics.)
  * Telegram user ids are positive integers and are modelled as `Nat`;
    Python's `str(user_id)` becomes `toString`.
  * A Python `dict` (and the mongo collection of the variable store, which is
    keyed by `_id`) is modelled as an association list with unique keys, in
    insertion order; `d[k] = v` becomes `upsert`, `del d[k]` becomes `delKey`.
  * Fallible operations return `Option`; results reported as ad-hoc Python
    dicts become inductive result types carrying the same fields.
-/

/-! ## Association-list primitives (Python dict / mongo collection) -/

/-- Python dict assignment `d[k] = v` (also mongo `update_one` with
`upsert=True` keyed on `_id`): replace the value at an existing key in place,
otherwise append the new binding at the end (insertion order). -/
def upsert {β : Type} : List (String × β) → String → β → List (String × β)
  | [], k, v => [(k, v)]
  | p :: t, k, v => if p.1 = k then (k, v) :: t else p :: upsert t k v

/-- Python `del d[k]` (also mongo `delete_one` keyed on `_id`): remove the
binding for `k`. -/
def delKey {β : Type} (s : List (String × β)) (k : String) : List (String × β) :=
  s.filter (fun p => p.1 != k)

theorem lookup_upsert_self {β : Type} (s : List (String × β)) (k : String) (v : β) :
    (upsert s k v).lookup k = some v := by
  induction s with
  | nil => simp [upsert, List.lookup]
  | cons p t ih =>
    by_cases h : p.1 = k
    · simp [upsert, h, List.lookup]
    · simp only [upsert, if_neg h, List.lookup]
      have : (k == p.1) = false := by
        simp only [beq_eq_false_iff_ne, ne_eq]
        exact fun hk => h hk.symm
      rw [this]
      exact ih

theorem lookup_upsert_ne {β : Type} (s : List (String × β)) (k k' : String) (v : β)
    (h : k' ≠ k) : (upsert s k v).lookup k' = s.lookup k' := by
  induction s with
  | nil =>
    simp only [upsert, List.lookup]
    have : (k' == k) = false := by simpa using h
    rw [this]
  | cons p t ih =>
    by_cases hp : p.1 = k
    · simp only [upsert, if_pos hp, List.lookup]
      have h1 : (k' == k) = false := by simpa using h
      have h2 : (k' == p.1) = false := by
        simp only [beq_eq_false_iff_ne, ne_eq]
        intro hk; exact h (hk.trans hp)
      rw [h1, h2]
    · simp only [upsert, if_neg hp, List.lookup]
      by_cases hk : k' = p.1
      · simp [hk]
      · have : (k' == p.1) = false := by simpa using hk
        rw [this, ih]

theorem lookup_delKey_self {β : Type} (s : List (String × β)) (k : String) :
    (delKey s k).lookup k = none := by
  induction s with
  | nil => simp [delKey, List.lookup]
  | cons p t ih =>
    by_cases h : p.1 = k
    · simpa [delKey, h] using ih
    · have hb : (p.1 != k) = true := by simpa using h
      simp only [delKey, List.filter_cons, hb, if_pos trivial, List.lookup]
      have : (k == p.1) = false := by
        simp only [beq_eq_false_iff_ne, ne_eq]
        exact fun hk => h hk.symm
      rw [this]
      exact ih

theorem lookup_delKey_ne {β : Type} (s : List (String × β)) (k k' : String)
    (h : k' ≠ k) : (delKey s k).lookup k' = s.lookup k' := by
  induction s with
  | nil => simp [delKey]
  | cons p t ih =>
    by_cases hp : p.1 = k
    · have hb : (p.1 != k) = false := by simpa using hp
      simp only [delKey, List.filter_cons, hb, List.lookup]
      have : (k' == p.1) = false := by
        simp only [beq_eq_false_iff_ne, ne_eq]
        intro hk; exact h (hk.trans hp)
      rw [this]
      exact ih
    · have hb : (p.1 != k) = true := by simpa using hp
      simp only [delKey, List.filter_cons, hb, if_pos trivial, List.lookup]
      by_cases hk : k' = p.1
      · simp [hk]
      · have hb2 : (k' == p.1) = false := by simpa using hk
        rw [hb2]
        simpa [delKey] using ih

theorem delKey_of_lookup_none {β : Type} (s : List (String × β)) (k : String)
    (h : s.lookup k = none) : delKey s k = s := by
  induction s with
  | nil => simp [delKey]
  | cons p t ih =>
    simp only [List.lookup] at h
    by_cases hp : k = p.1
    · rw [show (k == p.1) = true by simpa using hp] at h
      simp at h
    · rw [show (k == p.1) = false by simpa using hp] at h
      have hb : (p.1 != k) = true := by
        simp only [bne_iff_ne, ne_eq]
        exact fun hx => hp hx.symm
      simp only [delKey, List.filter_cons, hb, if_pos trivial]
      have ht := ih h
      simp only [delKey] at ht
      rw [ht]

/-! ## `database/database.py` — `SidDataBase` variable storage

A mongo document in the `variables` collection is `{'_id': key, 'value': v}`.
We model the document by its `value` field, which may in principle be absent
(`Option`), because `get_variable` reads it with `data.get('value', default)`:
a stored Python `None` is a *present* field holding `None`, which `.get`
returns in preference to the default. -/

/-- A Python value as stored in the variable collection.  `pynone` is Python's
`None`. -/
inductive PyVal where
  | pynone : PyVal
  | pyint : Int → PyVal
  | pystr : String → PyVal
deriving DecidableEq, Repr

/-- The `value` field of a `variables` document (present or absent). -/
structure VarDoc where
  value : Option PyVal
deriving DecidableEq, Repr

/-- The `variables` collection: documents keyed by `_id`. -/
abbrev VarStore : Type := List (String × VarDoc)

/-- `SidDataBase.set_variable`: `update_one({'_id': key}, {'$set': {'value':
value}}, upsert=True)` — upserts a document whose `value` field is present. -/
def set_variable (db : VarStore) (key : String) (value : PyVal) : VarStore :=
  upsert db key ⟨some value⟩

/-- `SidDataBase.get_variable`: `find_one({'_id': key})`; if a document is
found, `data.get('value', default)`, else `default`. -/
def get_variable (db : VarStore) (key : String) (default : PyVal) : PyVal :=
  match db.lookup key with
  | some doc => doc.value.getD default
  | none => default

/-- `SidDataBase.delete_variable`: `delete_one({'_id': key})`, returning
whether a document was deleted, together with the new collection state. -/
def delete_variable (db : VarStore) (key : String) : Bool × VarStore :=
  ((db.lookup key).isSome, delKey db key)

/-! ## `plugins/prem.py` — the premium manager's storage shape -/

/-- One entry of the aggregate premium map (`premium_users_set`): the record
stored under `str(user_id)`. -/
structure PremRecord where
  expiry : Int
  added_by : Nat
  added_at : Int
  duration_seconds : Int
deriving DecidableEq, Repr

/-- The value of the `premium_users_set` variable: stringified user id ↦
record, in insertion order. -/
abbrev PremiumSet : Type := List (String × PremRecord)

/-- Result dict of `PremiumManager.remove_premium`. -/
structure RemoveResult where
  success : Bool
  message : String
deriving DecidableEq, Repr

namespace PremiumManager

/-- `PremiumManager.remove_premium(user_id)`: returns the result dict and the
saved premium map.  If `str(user_id)` is not a key, fails and leaves the map
unchanged; otherwise deletes that entry and saves. -/
def remove_premium (s : PremiumSet) (user_id : Nat) : RemoveResult × PremiumSet :=
  let user_key := toString user_id
  match s.lookup user_key with
  | none => (⟨false, "User doesn\x27t have premium access"⟩, s)
  | some _ => (⟨true, "Premium access removed successfully"⟩, delKey s user_key)

/-- Result dict of `PremiumManager.check_premium`, one constructor per
returned dict shape. -/
inductive CheckResult where
  | notPremium : CheckResult
  | expiredPremium : CheckResult
  | premiumActive (expiry_date : Int) (days_left hours_left : Int)
      (added_by : Nat) (added_at : Int) (duration_seconds : Int) : CheckResult
deriving DecidableEq, Repr

/-- `PremiumManager.check_premium(user_id)` at time `now` over map `s`:
absent key → not premium, map untouched; `expiry < now` → calls
`remove_premium` (side effect) and reports expired; otherwise reports
`days_left = time_left.days` and `hours_left = time_left.seconds // 3600`
plus the stored metadata, map untouched. -/
def check_premium (now : Int) (s : PremiumSet) (user_id : Nat) :
    CheckResult × PremiumSet :=
  match s.lookup (toString user_id) with
  | none => (.notPremium, s)
  | some r =>
    if r.expiry < now then
      (.expiredPremium, (remove_premium s user_id).2)
    else
      let time_left := r.expiry - now
      (.premiumActive r.expiry (time_left / 86400) (time_left % 86400 / 3600)
        r.added_by r.added_at r.duration_seconds, s)

/-- `PremiumManager.add_premium(user_id, duration_seconds, added_by)` at time
`now`: `expiry = now + duration_seconds`, write/overwrite the record, save. -/
def add_premium (now : Int) (s : PremiumSet) (user_id : Nat)
    (duration_seconds : Int) (added_by : Nat) : PremiumSet :=
  upsert s (toString user_id)
    ⟨now + duration_seconds, added_by, now, duration_seconds⟩

end PremiumManager

/-- Claim C7: `remove_premium(u)` with `str(u)` absent returns a failure
carrying the message "User doesn\x27t have premium access" and leaves the map
unchanged; with `str(u)` present it deletes exactly that entry (every other
key's record is preserved) and returns success. -/
theorem c7_remove_premium_spec (s : PremiumSet) (u : Nat) :
    (s.lookup (toString u) = none →
      PremiumManager.remove_premium s u
        = (⟨false, "User doesn\x27t have premium access"⟩, s)) ∧
    (∀ r, s.lookup (toString u) = some r →
      (PremiumManager.remove_premium s u).1 = ⟨true, "Premium access removed successfully"⟩ ∧
      ((PremiumManager.remove_premium s u).2).lookup (toString u) = none ∧
      (∀ k, k ≠ toString u →
        ((PremiumManager.remove_premium s u).2).lookup k = s.lookup k)) := by
  constructor
  · intro h
    simp [PremiumManager.remove_premium, h]
  · intro r h
    refine ⟨?_, ?_, ?_⟩
    · simp [PremiumManager.remove_premium, h]
    · simp only [PremiumManager.remove_premium, h]
      exact lookup_delKey_self s (toString u)
    · intro k hk
      simp only [PremiumManager.remove_premium, h]
      exact lookup_delKey_ne s (toString u) k hk

/-- Witness for C7 at a concrete map: user 5 is absent (failure, map kept);
user 7 is present (deleted, user 8 preserved). -/
theorem c7_remove_premium_witness :
    (PremiumManager.remove_premium [("7", ⟨100, 1, 0, 100⟩), ("8", ⟨200, 1, 0, 200⟩)] 5
      = (⟨false, "User doesn\x27t have premium access"⟩,
         [("7", ⟨100, 1, 0, 100⟩), ("8", ⟨200, 1, 0, 200⟩)])) ∧
    ((PremiumManager.remove_premium [("7", ⟨100, 1, 0, 100⟩), ("8", ⟨200, 1, 0, 200⟩)] 7).1.success
      = true) ∧
    ((PremiumManager.remove_premium [("7", ⟨100, 1, 0, 100⟩), ("8", ⟨200, 1, 0, 200⟩)] 7).2.lookup "8"
      = some ⟨200, 1, 0, 200⟩) := by
  refine ⟨?_, ?_, ?_⟩
  · exact (c7_remove_premium_spec [("7", ⟨100, 1, 0, 100⟩), ("8", ⟨200, 1, 0, 200⟩)] 5).1
      (by decide)
  · exact ((c7_remove_premium_spec [("7", ⟨100, 1, 0, 100⟩), ("8", ⟨200, 1, 0, 200⟩)] 7).2
      ⟨100, 1, 0, 100⟩ (by decide)).1 ▸ rfl
  · have h := ((c7_remove_premium_spec [("7", ⟨100, 1, 0, 100⟩), ("8", ⟨200, 1, 0, 200⟩)] 7).2
      ⟨100, 1, 0, 100⟩ (by decide)).2.2 "8" (by decide)
    rw [h]
    decide

/-- Claim C10: the variable store satisfies a set/get round trip for every
value, including `None`: after `set_variable(k, v)`, `get_variable(k, d)`
returns `v` (not the default `d`).  Writing `None` is not deletion — the read
returns `None` rather than the default — and only `delete_variable(k)` makes
`get_variable(k, d)` return `d` again. -/
theorem c10_set_get_roundtrip (db : VarStore) (k : String) (v d : PyVal) :
    get_variable (set_variable db k v) k d = v ∧
    get_variable (set_variable db k .pynone) k d = .pynone ∧
    (d ≠ .pynone → get_variable (set_variable db k .pynone) k d ≠ d) ∧
    get_variable ((delete_variable (set_variable db k v) k).2) k d = d := by
  have hget : ∀ w : PyVal, get_variable (set_variable db k w) k d = w := by
    intro w
    simp only [get_variable, set_variable]
    rw [lookup_upsert_self]
    rfl
  refine ⟨hget v, hget .pynone, ?_, ?_⟩
  · intro hd
    rw [hget .pynone]
    exact fun h => hd h.symm
  · simp only [get_variable, delete_variable]
    rw [lookup_delKey_self]

/-- Witness for C10 at concrete inputs: storing `5` then reading with default
`9` yields `5`; storing `None` then reading with default `9` yields `None`
(not `9`); deleting restores the default. -/
theorem c10_set_get_roundtrip_witness :
    get_variable (set_variable [] "x" (.pyint 5)) "x" (.pyint 9) = .pyint 5 ∧
    get_variable (set_variable [] "x" .pynone) "x" (.pyint 9) ≠ .pyint 9 ∧
    get_variable ((delete_variable (set_variable [] "x" (.pyint 5)) "x").2) "x" (.pyint 9)
      = .pyint 9 := by
  refine ⟨(c10_set_get_roundtrip [] "x" (.pyint 5) (.pyint 9)).1,
    (c10_set_get_roundtrip [] "x" (.pyint 5) (.pyint 9)).2.2.1 (by decide),
    (c10_set_get_roundtrip [] "x" (.pyint 5) (.pyint 9)).2.2.2⟩

/-- Claim C1: `check_premium(u)` at time `now`: absent key → `is_premium`
false and the stored map unchanged; present with `expiry < now` → the user's
record is removed from the stored map (other records untouched) and the
result is flagged expired; present and unexpired → premium with
`days_left = (expiry - now) // 86400` whole days,
`hours_left = ((expiry - now) mod 86400) // 3600`, and the stored
`added_by`, `added_at`, `duration_seconds` metadata, map unchanged. -/
theorem c1_check_premium_spec (now : Int) (s : PremiumSet) (u : Nat) :
    (s.lookup (toString u) = none →
      PremiumManager.check_premium now s u = (.notPremium, s)) ∧
    (∀ r, s.lookup (toString u) = some r → r.expiry < now →
      (PremiumManager.check_premium now s u).1 = .expiredPremium ∧
      ((PremiumManager.check_premium now s u).2).lookup (toString u) = none ∧
      (∀ k, k ≠ toString u →
        ((PremiumManager.check_premium now s u).2).lookup k = s.lookup k)) ∧
    (∀ r, s.lookup (toString u) = some r → ¬(r.expiry < now) →
      PremiumManager.check_premium now s u
        = (.premiumActive r.expiry ((r.expiry - now) / 86400)
            ((r.expiry - now) % 86400 / 3600) r.added_by r.added_at
            r.duration_seconds, s)) := by
  refine ⟨?_, ?_, ?_⟩
  · intro h
    simp [PremiumManager.check_premium, h]
  · intro r h hexp
    have hst : (PremiumManager.check_premium now s u).2
        = (PremiumManager.remove_premium s u).2 := by
      simp [PremiumManager.check_premium, h, hexp]
    refine ⟨by simp [PremiumManager.check_premium, h, hexp], ?_, ?_⟩
    · rw [hst]
      simp only [PremiumManager.remove_premium, h]
      exact lookup_delKey_self s (toString u)
    · intro k hk
      rw [hst]
      simp only [PremiumManager.remove_premium, h]
      exact lookup_delKey_ne s (toString u) k hk
  · intro r h hexp
    simp [PremiumManager.check_premium, h, hexp]

/-- Witness for C1 at a concrete map at time 100: user 5 absent → not
premium; user 7 expired (50 < 100) → expired, record removed, user 9's
record preserved; user 9 active with 97200 seconds left → 1 day and 3
hours left, metadata passed through. -/
theorem c1_check_premium_witness :
    (PremiumManager.check_premium 100
        [("7", ⟨50, 1, 0, 50⟩), ("9", ⟨97300, 2, 10, 300⟩)] 5
      = (.notPremium, [("7", ⟨50, 1, 0, 50⟩), ("9", ⟨97300, 2, 10, 300⟩)])) ∧
    ((PremiumManager.check_premium 100
        [("7", ⟨50, 1, 0, 50⟩), ("9", ⟨97300, 2, 10, 300⟩)] 7).1
      = .expiredPremium) ∧
    ((PremiumManager.check_premium 100
        [("7", ⟨50, 1, 0, 50⟩), ("9", ⟨97300, 2, 10, 300⟩)] 7).2.lookup "7"
      = none) ∧
    ((PremiumManager.check_premium 100
        [("7", ⟨50, 1, 0, 50⟩), ("9", ⟨97300, 2, 10, 300⟩)] 7).2.lookup "9"
      = some ⟨97300, 2, 10, 300⟩) ∧
    (PremiumManager.check_premium 100
        [("7", ⟨50, 1, 0, 50⟩), ("9", ⟨97300, 2, 10, 300⟩)] 9
      = (.premiumActive 97300 1 3 2 10 300,
         [("7", ⟨50, 1, 0, 50⟩), ("9", ⟨97300, 2, 10, 300⟩)])) := by
  refine ⟨?_, ?_, ?_, ?_, ?_⟩
  · exact (c1_check_premium_spec 100
      [("7", ⟨50, 1, 0, 50⟩), ("9", ⟨97300, 2, 10, 300⟩)] 5).1 (by decide)
  · exact ((c1_check_premium_spec 100
      [("7", ⟨50, 1, 0, 50⟩), ("9", ⟨97300, 2, 10, 300⟩)] 7).2.1
      ⟨50, 1, 0, 50⟩ (by decide) (by decide)).1
  · exact ((c1_check_premium_spec 100
      [("7", ⟨50, 1, 0, 50⟩), ("9", ⟨97300, 2, 10, 300⟩)] 7).2.1
      ⟨50, 1, 0, 50⟩ (by decide) (by decide)).2.1
  · have h := ((c1_check_premium_spec 100
      [("7", ⟨50, 1, 0, 50⟩), ("9", ⟨97300, 2, 10, 300⟩)] 7).2.1
      ⟨50, 1, 0, 50⟩ (by decide) (by decide)).2.2 "9" (by decide)
    rw [h]
    decide
  · have h := (c1_check_premium_spec 100
      [("7", ⟨50, 1, 0, 50⟩), ("9", ⟨97300, 2, 10, 300⟩)] 9).2.2
      ⟨97300, 2, 10, 300⟩ (by decide) (by decide)
    rw [h]
    decide

/-! ## `plugins/prem.py` — `parse_duration`

The source matches the anchored regex `^(\d+)(s|m|h|d|w|mo|y)$` against the
lowercased input and multiplies the captured number by a unit factor; an
unmatched string returns `None`.  Since no unit alternative contains a digit,
the anchored match succeeds exactly when the lowercased string is a non-empty
maximal run of digits followed by one of the unit strings, which is how we
embed it. -/

/-- Numeric value of a run of decimal digit characters (Python `int` applied
to the matched digit group). -/
def digitsVal (cs : List Char) : Nat :=
  cs.foldl (fun a c => a * 10 + (c.toNat - 48)) 0

/-- The `conversions` unit table of `parse_duration`, applied to the unit
capture group (the regex alternation `s|m|h|d|w|mo|y`). -/
def unitFactor (cs : List Char) : Option Nat :=
  if cs = ['s'] then some 1
  else if cs = ['m'] then some 60
  else if cs = ['h'] then some 3600
  else if cs = ['d'] then some 86400
  else if cs = ['w'] then some 604800
  else if cs = ['m', 'o'] then some 2592000
  else if cs = ['y'] then some 31536000
  else none

/-- `parse_duration(duration_str)` (plugins/prem.py). -/
def parse_duration (duration_str : String) : Option Nat :=
  let t := duration_str.data.map Char.toLower
  let digits := t.takeWhile Char.isDigit
  let rest := t.dropWhile Char.isDigit
  if digits.isEmpty then none
  else (unitFactor rest).map (fun f => digitsVal digits * f)

/-- Python `str.lower()`. -/
def lowerStr (s : String) : String := String.mk (s.data.map Char.toLower)

theorem digitChar_spec (m : Nat) (hm : m < 10) :
    (Nat.digitChar m).isDigit = true ∧
    Char.toLower (Nat.digitChar m) = Nat.digitChar m ∧
    (Nat.digitChar m).toNat - 48 = m := by
  interval_cases m <;> exact ⟨by decide, by decide, by decide⟩

theorem toDigitsCore_append (fuel : Nat) : ∀ (n : Nat) (ds : List Char),
    Nat.toDigitsCore 10 fuel n ds = Nat.toDigitsCore 10 fuel n [] ++ ds := by
  induction fuel with
  | zero => intro n ds; simp [Nat.toDigitsCore]
  | succ fuel ih =>
    intro n ds
    simp only [Nat.toDigitsCore]
    by_cases h : n / 10 = 0
    · simp [h]
    · rw [if_neg h, if_neg h, ih (n / 10) ((n % 10).digitChar :: ds),
        ih (n / 10) [(n % 10).digitChar]]
      simp

theorem toDigitsCore_digits (fuel : Nat) : ∀ n, ∀ c ∈ Nat.toDigitsCore 10 fuel n [],
    ∃ m, m < 10 ∧ c = Nat.digitChar m := by
  induction fuel with
  | zero => intro n c hc; simp [Nat.toDigitsCore] at hc
  | succ fuel ih =>
    intro n c hc
    simp only [Nat.toDigitsCore] at hc
    by_cases h : n / 10 = 0
    · rw [if_pos h] at hc
      simp only [List.mem_singleton] at hc
      exact ⟨n % 10, Nat.mod_lt _ (by norm_num), hc⟩
    · rw [if_neg h, toDigitsCore_append] at hc
      rcases List.mem_append.mp hc with h1 | h2
      · exact ih (n / 10) c h1
      · simp only [List.mem_singleton] at h2
        exact ⟨n % 10, Nat.mod_lt _ (by norm_num), h2⟩

theorem digitsVal_toDigitsCore (fuel : Nat) : ∀ n, n < 10 ^ fuel →
    digitsVal (Nat.toDigitsCore 10 fuel n []) = n := by
  induction fuel with
  | zero =>
    intro n hn
    interval_cases n
    simp [Nat.toDigitsCore, digitsVal]
  | succ fuel ih =>
    intro n hn
    simp only [Nat.toDigitsCore]
    by_cases h : n / 10 = 0
    · rw [if_pos h]
      have h10 : n % 10 < 10 := Nat.mod_lt _ (by norm_num)
      have hv := (digitChar_spec (n % 10) h10).2.2
      simp only [digitsVal, List.foldl_cons, List.foldl_nil]
      omega
    · rw [if_neg h, toDigitsCore_append]
      have hlt : n / 10 < 10 ^ fuel := by
        rw [pow_succ] at hn
        omega
      have hrec := ih (n / 10) hlt
      have h10 : n % 10 < 10 := Nat.mod_lt _ (by norm_num)
      have hv := (digitChar_spec (n % 10) h10).2.2
      simp only [digitsVal, List.foldl_append, List.foldl_cons, List.foldl_nil]
      simp only [digitsVal] at hrec
      omega

theorem repr_data_eq (n : Nat) :
    (Nat.repr n).data = Nat.toDigitsCore 10 (n + 1) n [] := rfl

theorem repr_data_digits (n : Nat) : ∀ c ∈ (Nat.repr n).data,
    c.isDigit = true ∧ Char.toLower c = c := by
  intro c hc
  rw [repr_data_eq] at hc
  obtain ⟨m, hm, rfl⟩ := toDigitsCore_digits (n + 1) n c hc
  exact ⟨(digitChar_spec m hm).1, (digitChar_spec m hm).2.1⟩

theorem repr_data_ne_nil (n : Nat) : (Nat.repr n).data ≠ [] := by
  rw [repr_data_eq]
  simp only [Nat.toDigitsCore]
  by_cases h : n / 10 = 0
  · simp [h]
  · rw [if_neg h, toDigitsCore_append]
    simp

theorem digitsVal_repr (n : Nat) : digitsVal (Nat.repr n).data = n := by
  rw [repr_data_eq]
  refine digitsVal_toDigitsCore (n + 1) n ?_
  have h1 : n < 10 ^ n := Nat.lt_pow_self (by norm_num) n
  have h2 : 10 ^ n ≤ 10 ^ (n + 1) := Nat.pow_le_pow_right (by norm_num) (Nat.le_succ n)
  omega

theorem map_toLower_id (l : List Char) (h : ∀ c ∈ l, Char.toLower c = c) :
    l.map Char.toLower = l := by
  induction l with
  | nil => rfl
  | cons c t ih =>
    simp only [List.map_cons, h c (by simp)]
    rw [ih (fun x hx => h x (by simp [hx]))]

theorem takeWhile_append_all {p : Char → Bool} (l r : List Char)
    (h : ∀ c ∈ l, p c = true) :
    (l ++ r).takeWhile p = l ++ r.takeWhile p ∧
    (l ++ r).dropWhile p = r.dropWhile p := by
  induction l with
  | nil => simp
  | cons c t ih =>
    have hc : p c = true := h c (by simp)
    have ht := ih (fun x hx => h x (by simp [hx]))
    constructor
    · simp [List.takeWhile_cons, hc, ht.1]
    · simp [List.dropWhile_cons, hc, ht.2]

theorem unitFactor_cases (cs : List Char) (f : Nat) (h : unitFactor cs = some f) :
    cs = ['s'] ∨ cs = ['m'] ∨ cs = ['h'] ∨ cs = ['d'] ∨ cs = ['w'] ∨
    cs = ['m', 'o'] ∨ cs = ['y'] := by
  unfold unitFactor at h
  split_ifs at h with h1 h2 h3 h4 h5 h6 h7
  · exact Or.inl h1
  · exact Or.inr (Or.inl h2)
  · exact Or.inr (Or.inr (Or.inl h3))
  · exact Or.inr (Or.inr (Or.inr (Or.inl h4)))
  · exact Or.inr (Or.inr (Or.inr (Or.inr (Or.inl h5))))
  · exact Or.inr (Or.inr (Or.inr (Or.inr (Or.inr (Or.inl h6)))))
  · exact Or.inr (Or.inr (Or.inr (Or.inr (Or.inr (Or.inr h7)))))

theorem unitFactor_not_digit_lead (cs : List Char) (f : Nat)
    (h : unitFactor cs = some f) :
    cs.takeWhile Char.isDigit = [] ∧ cs.dropWhile Char.isDigit = cs := by
  rcases unitFactor_cases cs f h with h' | h' | h' | h' | h' | h' | h' <;>
    subst h' <;> exact ⟨by decide, by decide⟩

/-- Core parse law: for every `n` and every string `u` whose lowercasing is a
unit of the grammar with factor `f`, `parse_duration(str(n) + u) = n * f`. -/
theorem parse_duration_correct (n : Nat) (u : String) (f : Nat)
    (hu : unitFactor (u.data.map Char.toLower) = some f) :
    parse_duration (toString n ++ u) = some (n * f) := by
  have hdata : (toString n ++ u).data = (Nat.repr n).data ++ u.data :=
    String.data_append (Nat.repr n) u
  unfold parse_duration
  rw [hdata, List.map_append,
    map_toLower_id (Nat.repr n).data (fun c hc => (repr_data_digits n c hc).2)]
  have hdig : ∀ c ∈ (Nat.repr n).data, Char.isDigit c = true :=
    fun c hc => (repr_data_digits n c hc).1
  have hsplit := takeWhile_append_all (p := Char.isDigit)
    (Nat.repr n).data (u.data.map Char.toLower) hdig
  have hunit := unitFactor_not_digit_lead (u.data.map Char.toLower) f hu
  have hne : ((Nat.repr n).data).isEmpty = false := by
    cases hd : (Nat.repr n).data with
    | nil => exact absurd hd (repr_data_ne_nil n)
    | cons c t => rfl
  simp only [hsplit.1, hsplit.2, hunit.1, hunit.2, List.append_nil, hne,
    Bool.false_eq_true, if_false, hu, digitsVal_repr]
  rfl

/-- Claim C5: for every `n` and unit in the grammar (case-insensitive),
`parse_duration(str(n) + unit) = n * factor` with the factor table s=1,
m=60, h=3600, d=86400, w=604800, mo=2592000, y=31536000; strings failing the
pattern (such as "abc", "10x", "-5d") yield no parse, never zero; and every
successful parse decomposes the lowercased input as digits followed by a
unit. -/
theorem c5_parse_duration_spec :
    (∀ (n : Nat) (u : String) (f : Nat), 0 < n →
        unitFactor (u.data.map Char.toLower) = some f →
        parse_duration (toString n ++ u) = some (n * f)) ∧
    (unitFactor ['s'] = some 1 ∧ unitFactor ['m'] = some 60 ∧
     unitFactor ['h'] = some 3600 ∧ unitFactor ['d'] = some 86400 ∧
     unitFactor ['w'] = some 604800 ∧ unitFactor ['m', 'o'] = some 2592000 ∧
     unitFactor ['y'] = some 31536000) ∧
    parse_duration "abc" = none ∧
    parse_duration "10x" = none ∧
    parse_duration "-5d" = none ∧
    (∀ (s : String) (v : Nat), parse_duration s = some v →
      ∃ ds rest f, s.data.map Char.toLower = ds ++ rest ∧ ds ≠ [] ∧
        (∀ c ∈ ds, c.isDigit = true) ∧ unitFactor rest = some f ∧
        v = digitsVal ds * f) := by
  refine ⟨fun n u f _ hu => parse_duration_correct n u f hu,
    ⟨by decide, by decide, by decide, by decide, by decide, by decide, by decide⟩,
    by decide, by decide, by decide, ?_⟩
  intro s v hv
  unfold parse_duration at hv
  by_cases hne : (List.takeWhile Char.isDigit (s.data.map Char.toLower)).isEmpty = true
  · rw [if_pos hne] at hv
    exact absurd hv (by simp)
  · rw [if_neg hne] at hv
    obtain ⟨f, hf, hvf⟩ := Option.map_eq_some'.mp hv
    refine ⟨List.takeWhile Char.isDigit (s.data.map Char.toLower),
      List.dropWhile Char.isDigit (s.data.map Char.toLower), f,
      (List.takeWhile_append_dropWhile Char.isDigit
        (s.data.map Char.toLower)).symm, ?_, ?_, hf, hvf.symm⟩
    · intro hnil
      rw [hnil] at hne
      exact hne rfl
    · intro c hc
      exact List.mem_takeWhile_imp hc

/-- Witness for C5: `parse_duration("7" + "d") = 7 * 86400`. -/
theorem c5_parse_duration_witness :
    parse_duration (toString 7 ++ "d") = some (7 * 86400) :=
  c5_parse_duration_spec.1 7 "d" 86400 (by decide) (by decide)

/-! ## `plugins/prem.py` — extend premium (command and callback paths) -/

/-- Outcome of an extend attempt, one constructor per user-visible reply. -/
inductive ExtendResult where
  | invalidDuration : ExtendResult
  | notActivePremium : ExtendResult
  | extended : Int → ExtendResult
  | internalError : ExtendResult
deriving DecidableEq, Repr

/-- The core of `/extendpremium` (`extend_premium_command`, plugins/prem.py)
after the admin gate and argument split: lowercase and parse the duration
(`None` or `<= 0` → invalid), require an *active* record via `check_premium`
(keeping its expiry-sweep side effect on the stored map), re-read the map,
set `expiry = current_expiry + duration` and accumulate `duration_seconds`,
then save.  A `KeyError` on the re-read would be caught by the broad handler
(`internalError`; unreachable when the check succeeded). -/
def extend_premium_command (now : Int) (s : PremiumSet) (user_id : Nat)
    (duration_input : String) : ExtendResult × PremiumSet :=
  match parse_duration (lowerStr duration_input) with
  | none => (.invalidDuration, s)
  | some d =>
    if d = 0 then (.invalidDuration, s)
    else
      let c := PremiumManager.check_premium now s user_id
      match c.1 with
      | .premiumActive _ _ _ _ _ _ =>
        match c.2.lookup (toString user_id) with
        | some r =>
          (.extended (r.expiry + (d : Int)),
            upsert c.2 (toString user_id)
              { r with expiry := r.expiry + (d : Int),
                       duration_seconds := r.duration_seconds + (d : Int) })
        | none => (.internalError, c.2)
      | _ => (.notActivePremium, c.2)

/-- The core of the `extend_<id>_<duration>` callback
(`extend_premium_callback`, plugins/prem.py) after the admin gate: parse the
duration (falsy result → invalid), require only that `str(user_id)` is
*present* in the raw map — no expiry comparison — then extend from the stored
expiry and save. -/
def extend_premium_callback (s : PremiumSet) (user_id : Nat)
    (duration_input : String) : ExtendResult × PremiumSet :=
  match parse_duration duration_input with
  | none => (.invalidDuration, s)
  | some d =>
    if d = 0 then (.invalidDuration, s)
    else
      match s.lookup (toString user_id) with
      | none => (.notActivePremium, s)
      | some r =>
        (.extended (r.expiry + (d : Int)),
          upsert s (toString user_id)
            { r with expiry := r.expiry + (d : Int),
                     duration_seconds := r.duration_seconds + (d : Int) })

/-- Claim C3 counterexample: the claim states that a user without an
existing, *non-expired* record is never extended, but the
`extend_<id>_<duration>` callback checks only presence.  User 7's record
expired at time 0 (so at reference time 100 it is expired and
`check_premium` would report it expired), yet the callback extends it
additively from the stale expiry and reports success. -/
theorem c3_extend_counterexample :
    (PremiumManager.check_premium 100 [("7", ⟨0, 1, 0, 604800⟩)] 7).1
      = .expiredPremium ∧
    extend_premium_callback [("7", ⟨0, 1, 0, 604800⟩)] 7 "7d"
      = (.extended 604800, [("7", ⟨604800, 1, 0, 1209600⟩)]) := by
  constructor
  · decide
  · decide

theorem extend_premium_command_active (now : Int) (s : PremiumSet) (u : Nat)
    (dur : String) (d : Nat) (r : PremRecord)
    (hp : parse_duration (lowerStr dur) = some d) (hd : d ≠ 0)
    (hr : s.lookup (toString u) = some r) (hexp : ¬(r.expiry < now)) :
    extend_premium_command now s u dur
      = (.extended (r.expiry + (d : Int)),
         upsert s (toString u)
           ⟨r.expiry + (d : Int), r.added_by, r.added_at,
            r.duration_seconds + (d : Int)⟩) := by
  have hc : PremiumManager.check_premium now s u
      = (.premiumActive r.expiry ((r.expiry - now) / 86400)
          ((r.expiry - now) % 86400 / 3600) r.added_by r.added_at
          r.duration_seconds, s) := by
    simp [PremiumManager.check_premium, hr, hexp]
  simp only [extend_premium_command, hp, if_neg hd, hc, hr]

/-- Claim C3 (amended): the `/extendpremium` command path requires an active
(non-expired) record and then sets `expiry = current_expiry + duration`
(additive from the stored expiry, not from the time of the call) while
accumulating `duration_seconds`; users that are absent, or whose record is
expired, are not extended by the command.  The `extend_<id>_<duration>`
*callback* path refuses only absent users: it extends any present record —
including an expired one — additively from its stored expiry.  Granting 7d
and immediately extending by 7d yields an expiry exactly 14 days after the
grant with `duration_seconds` equal to the sum of both durations. -/
theorem c3_extend_amended_spec :
    (∀ (now : Int) (s : PremiumSet) (u : Nat) (dur : String) (d : Nat)
        (r : PremRecord),
      parse_duration (lowerStr dur) = some d → d ≠ 0 →
      s.lookup (toString u) = some r → ¬(r.expiry < now) →
      extend_premium_command now s u dur
        = (.extended (r.expiry + (d : Int)),
           upsert s (toString u)
             ⟨r.expiry + (d : Int), r.added_by, r.added_at,
              r.duration_seconds + (d : Int)⟩)) ∧
    (∀ (now : Int) (s : PremiumSet) (u : Nat) (dur : String),
      s.lookup (toString u) = none →
      (extend_premium_command now s u dur).2 = s ∧
      ∀ e, (extend_premium_command now s u dur).1 ≠ .extended e) ∧
    (∀ (now : Int) (s : PremiumSet) (u : Nat) (dur : String) (r : PremRecord),
      s.lookup (toString u) = some r → r.expiry < now →
      ∀ e, (extend_premium_command now s u dur).1 ≠ .extended e) ∧
    (∀ (s : PremiumSet) (u : Nat) (dur : String),
      s.lookup (toString u) = none →
      (extend_premium_callback s u dur).2 = s ∧
      ∀ e, (extend_premium_callback s u dur).1 ≠ .extended e) ∧
    (∀ (s : PremiumSet) (u : Nat) (dur : String) (d : Nat) (r : PremRecord),
      parse_duration dur = some d → d ≠ 0 →
      s.lookup (toString u) = some r →
      extend_premium_callback s u dur
        = (.extended (r.expiry + (d : Int)),
           upsert s (toString u)
             ⟨r.expiry + (d : Int), r.added_by, r.added_at,
              r.duration_seconds + (d : Int)⟩)) ∧
    (∀ (t0 t1 : Int) (s : PremiumSet) (u a : Nat),
      ¬(t0 + 604800 < t1) →
      extend_premium_command t1 (PremiumManager.add_premium t0 s u 604800 a) u "7d"
        = (.extended (t0 + 1209600),
           upsert (PremiumManager.add_premium t0 s u 604800 a) (toString u)
             ⟨t0 + 1209600, a, t0, 1209600⟩)) := by
  refine ⟨extend_premium_command_active, ?_, ?_, ?_, ?_, ?_⟩
  · intro now s u dur hr
    have hc : PremiumManager.check_premium now s u = (.notPremium, s) := by
      simp [PremiumManager.check_premium, hr]
    cases hp : parse_duration (lowerStr dur) with
    | none => simp [extend_premium_command, hp]
    | some d =>
      by_cases hd : d = 0
      · simp [extend_premium_command, hp, hd]
      · simp [extend_premium_command, hp, if_neg hd, hc]
  · intro now s u dur r hr hexp
    have hc : (PremiumManager.check_premium now s u).1 = .expiredPremium := by
      simp [PremiumManager.check_premium, hr, hexp]
    cases hp : parse_duration (lowerStr dur) with
    | none => simp [extend_premium_command, hp]
    | some d =>
      by_cases hd : d = 0
      · simp [extend_premium_command, hp, hd]
      · simp [extend_premium_command, hp, if_neg hd, hc]
  · intro s u dur hr
    cases hp : parse_duration dur with
    | none => simp [extend_premium_callback, hp]
    | some d =>
      by_cases hd : d = 0
      · simp [extend_premium_callback, hp, hd]
      · simp [extend_premium_callback, hp, if_neg hd, hr]
  · intro s u dur d r hp hd hr
    simp only [extend_premium_callback, hp, if_neg hd, hr]
  · intro t0 t1 s u a hexp
    have hr : (PremiumManager.add_premium t0 s u 604800 a).lookup (toString u)
        = some ⟨t0 + 604800, a, t0, 604800⟩ :=
      lookup_upsert_self s (toString u) ⟨t0 + 604800, a, t0, 604800⟩
    have h := extend_premium_command_active t1
      (PremiumManager.add_premium t0 s u 604800 a) u "7d" 604800
      ⟨t0 + 604800, a, t0, 604800⟩ (by decide) (by decide) hr hexp
    rw [h]
    have e1 : t0 + 604800 + 604800 = t0 + 1209600 := by ring
    norm_num [e1]

/-- Witness for the amended C3: grant user 7 a 7-day premium at time 0 over
an empty map, extend by "7d" at time 0 — the result is an expiry of
1209600 (14 days after the grant) with summed duration. -/
theorem c3_extend_amended_witness :
    extend_premium_command 0 (PremiumManager.add_premium 0 [] 7 604800 1) 7 "7d"
      = (.extended 1209600, [("7", ⟨1209600, 1, 0, 1209600⟩)]) := by
  have h := c3_extend_amended_spec.2.2.2.2.2 0 0 [] 7 1 (by decide)
  rw [h]
  decide

/-! ## Seconds-to-clock formatters

`TimeFormatter.format_seconds` (argon/prem.py) and
`AccessManager.format_time_duration` (plugins/start.py) are two independent
implementations of the same rendering; each is embedded separately below,
mirroring its own source. -/

namespace TimeFormatter

/-- `TimeFormatter.format_seconds(total_seconds)` (argon/prem.py): an input
of 0 short-circuits to "0 seconds"; otherwise hour/minute/second components
are emitted with singular/plural suffixing, the seconds component suppressed
whenever hours is non-zero, joined by single spaces. -/
def format_seconds (total_seconds : Nat) : String :=
  if total_seconds = 0 then "0 seconds"
  else
    let hours := total_seconds / 3600
    let minutes := total_seconds % 3600 / 60
    let seconds := total_seconds % 60
    let parts : List String :=
      (if hours ≠ 0 then
        [toString hours ++ " hour" ++ (if 1 < hours then "s" else "")] else []) ++
      (if minutes ≠ 0 then
        [toString minutes ++ " minute" ++ (if 1 < minutes then "s" else "")] else []) ++
      (if seconds ≠ 0 ∧ hours = 0 then
        [toString seconds ++ " second" ++ (if 1 < seconds then "s" else "")] else [])
    String.intercalate " " parts

end TimeFormatter

namespace AccessManager

/-- `AccessManager.format_time_duration(seconds)` (plugins/start.py): same
component construction, but the 0 case falls out of the empty-parts fallback
`" ".join(parts) if parts else "0 seconds"`. -/
def format_time_duration (seconds : Nat) : String :=
  let hours := seconds / 3600
  let minutes := seconds % 3600 / 60
  let secs := seconds % 60
  let parts : List String :=
    (if hours ≠ 0 then
      [toString hours ++ " hour" ++ (if 1 < hours then "s" else "")] else []) ++
    (if minutes ≠ 0 then
      [toString minutes ++ " minute" ++ (if 1 < minutes then "s" else "")] else []) ++
    (if secs ≠ 0 ∧ hours = 0 then
      [toString secs ++ " second" ++ (if 1 < secs then "s" else "")] else [])
  if parts.isEmpty then "0 seconds" else String.intercalate " " parts

end AccessManager

/-- Claim C9: the two independent seconds-to-clock formatters return
identical strings for every non-negative input; both render 0 as
"0 seconds". -/
theorem c9_formatters_agree :
    (∀ n : Nat, TimeFormatter.format_seconds n = AccessManager.format_time_duration n) ∧
    TimeFormatter.format_seconds 0 = "0 seconds" ∧
    AccessManager.format_time_duration 0 = "0 seconds" := by
  refine ⟨?_, by decide, by decide⟩
  intro n
  by_cases h0 : n = 0
  · subst h0; decide
  · simp only [TimeFormatter.format_seconds, AccessManager.format_time_duration,
      if_neg h0]
    by_cases h1 : n / 3600 = 0
    · by_cases h2 : n % 3600 / 60 = 0
      · have h3 : n % 60 ≠ 0 := by omega
        simp [h1, h2, h3]
      · simp [h1, h2]
    · simp [h1]

/-! ## `plugins/prem.py` — `PremiumMessageBuilder.build_list_message`

The function renders a text page plus inline keyboard; the embedding keeps
its observable page structure: the total/page arithmetic, which entries (with
their 1-based display numbers from `enumerate(page_users, start=start_idx+1)`)
appear on the page, and which navigation controls are offered. -/

/-- Observable content of one rendered premium-list page. -/
structure ListPageView (α : Type) where
  empty : Bool
  total_users : Nat
  total_pages : Nat
  entries : List (Nat × α)
  hasPrev : Bool
  hasNext : Bool
deriving DecidableEq, Repr

namespace PremiumMessageBuilder

/-- `PremiumMessageBuilder.build_list_message(premium_users, page, per_page)`:
empty input renders the "no premium users" card with no controls; otherwise
`total_pages = ceil(total / per_page)`, the page slice is
`premium_users[start_idx:start_idx+per_page]` numbered from `start_idx + 1`,
a "previous" control is offered iff `page > 1` and a "next" control iff
`page < total_pages`. -/
def build_list_message {α : Type} (premium_users : List α)
    (page : Nat) (per_page : Nat) : ListPageView α :=
  if premium_users.isEmpty then
    ⟨true, 0, 0, [], false, false⟩
  else
    let total_users := premium_users.length
    let total_pages := (total_users + per_page - 1) / per_page
    let start_idx := (page - 1) * per_page
    let page_users := (premium_users.drop start_idx).take per_page
    ⟨false, total_users, total_pages, List.enumFrom (start_idx + 1) page_users,
      decide (1 < page), decide (page < total_pages)⟩

end PremiumMessageBuilder

/-- Claim C8: with 23 premium users and `per_page = 10`, `total_pages = 3`;
page 1 lists entries numbered 1–10 and offers only a "next" control, page 2
lists entries 11–20 with both controls, page 3 lists entries 21–23 with only
a "previous" control. -/
theorem c8_pagination_spec {α : Type} (users : List α) (h : users.length = 23) :
    ((PremiumMessageBuilder.build_list_message users 1 10).total_pages = 3 ∧
     (PremiumMessageBuilder.build_list_message users 1 10).entries
       = List.enumFrom 1 (users.take 10) ∧
     (PremiumMessageBuilder.build_list_message users 1 10).entries.map Prod.fst
       = List.range' 1 10 ∧
     (PremiumMessageBuilder.build_list_message users 1 10).hasPrev = false ∧
     (PremiumMessageBuilder.build_list_message users 1 10).hasNext = true) ∧
    ((PremiumMessageBuilder.build_list_message users 2 10).entries
       = List.enumFrom 11 ((users.drop 10).take 10) ∧
     (PremiumMessageBuilder.build_list_message users 2 10).entries.map Prod.fst
       = List.range' 11 10 ∧
     (PremiumMessageBuilder.build_list_message users 2 10).hasPrev = true ∧
     (PremiumMessageBuilder.build_list_message users 2 10).hasNext = true) ∧
    ((PremiumMessageBuilder.build_list_message users 3 10).entries
       = List.enumFrom 21 (users.drop 20) ∧
     (PremiumMessageBuilder.build_list_message users 3 10).entries.map Prod.fst
       = List.range' 21 3 ∧
     (PremiumMessageBuilder.build_list_message users 3 10).hasPrev = true ∧
     (PremiumMessageBuilder.build_list_message users 3 10).hasNext = false) := by
  have hne : users.isEmpty = false := by
    cases users with
    | nil => simp at h
    | cons a t => rfl
  have hlen3 : (users.drop 20).length = 3 := by simp [h]
  have htk : (users.drop 20).take 10 = users.drop 20 :=
    List.take_of_length_le (by omega)
  refine ⟨⟨?_, ?_, ?_, ?_, ?_⟩, ⟨?_, ?_, ?_, ?_⟩, ⟨?_, ?_, ?_, ?_⟩⟩ <;>
    simp only [PremiumMessageBuilder.build_list_message, hne,
      Bool.false_eq_true, if_false, h, htk] <;>
    first
      | rfl
      | (rw [List.enumFrom_map_fst, hlen3])
      | (rw [List.enumFrom_map_fst]
         simp [h])

/-- Witness for C8 on a concrete 23-element list. -/
theorem c8_pagination_witness :
    (PremiumMessageBuilder.build_list_message (List.range 23) 1 10).total_pages = 3 ∧
    (PremiumMessageBuilder.build_list_message (List.range 23) 3 10).entries.map Prod.fst
      = [21, 22, 23] := by
  have h := c8_pagination_spec (List.range 23) (by decide)
  exact ⟨h.1.1, by rw [h.2.2.2.1]; decide⟩

/-! ## `plugins/start.py` — `FileRequestHandler` message-id resolution -/

namespace FileRequestHandler

/-- `FileRequestHandler._maybe_unwrap_token(value, db_channel_id)`
(plugins/start.py): a falsy channel id passes the value through; otherwise a
value at least `abs(db_channel_id)` and evenly divisible by it is divided
back down (the legacy `msgid * abs(channel)` encoding), any other value is
returned unchanged. -/
def maybe_unwrap_token (value : Int) (db_channel_id : Int) : Int :=
  if db_channel_id = 0 then value
  else
    let abs_db : Int := (db_channel_id.natAbs : Int)
    if abs_db ≤ value ∧ value % abs_db = 0 then value / abs_db else value

/-- Python `int(token)` on a deep-link token: an optional leading minus sign
followed by a non-empty run of decimal digits; any other shape raises
(`none`). -/
def pyToInt? (s : String) : Option Int :=
  match s.data with
  | '-' :: rest =>
    if rest ≠ [] ∧ rest.all Char.isDigit then some (-(digitsVal rest : Int))
    else none
  | cs =>
    if cs ≠ [] ∧ cs.all Char.isDigit then some ((digitsVal cs : Int))
    else none

/-- Python `list(range(start, end + 1))` when `start <= end`, else
`list(range(start, end - 1, -1))` — the inclusive ascending or descending
expansion used by `parse_message_ids`. -/
def rangeList (start stop : Int) : List Int :=
  if start ≤ stop then
    (List.range ((stop - start).toNat + 1)).map (fun i : Nat => start + (i : Int))
  else
    (List.range ((start - stop).toNat + 1)).map (fun i : Nat => start - (i : Int))

/-- The trailing part of `parse_message_ids` once the explicit `set`/`get`
shapes have not matched: in link mode, scan every token for integers
(skipping unparsable ones) and use the first one or two; otherwise the
two-token fallback `[something, msgid]`. -/
def parse_fallback (tokens : List String) (db_channel_id : Int)
    (link_mode : Bool) : Option (List Int) :=
  if link_mode then
    let ints := tokens.filterMap
      (fun t => (pyToInt? t).map (fun i => maybe_unwrap_token i db_channel_id))
    match ints with
    | [] => none
    | [i] => some [i]
    | i0 :: i1 :: _ => some (rangeList i0 i1)
  else
    match tokens with
    | _ :: t1 :: _ =>
      (pyToInt? t1).map (fun v => [maybe_unwrap_token v db_channel_id])
    | _ => none

/-- `FileRequestHandler.parse_message_ids(argument, db_channel_id, link_mode)`
(plugins/start.py): the `["set", channel, msgid[, end]]` and
`["get", msgid[, end]]` shapes, then the link-mode scan / two-token
fallback.  Every candidate id runs through `maybe_unwrap_token`; an `int()`
failure inside a branch propagates as `none` (the broad exception handler),
except in the link-mode scan, which skips the failing token. -/
def parse_message_ids (tokens : List String) (db_channel_id : Int)
    (link_mode : Bool) : Option (List Int) :=
  match tokens with
  | t0 :: rest =>
    if lowerStr t0 = "set" then
      match rest with
      | _ :: t2 :: t3 :: _ => do
        let s ← pyToInt? t2
        let e ← pyToInt? t3
        pure (rangeList (maybe_unwrap_token s db_channel_id)
          (maybe_unwrap_token e db_channel_id))
      | [_, t2] => do
        let v ← pyToInt? t2
        pure [maybe_unwrap_token v db_channel_id]
      | _ => none
    else if lowerStr t0 = "get" then
      match rest with
      | t1 :: t2 :: _ => do
        let s ← pyToInt? t1
        let e ← pyToInt? t2
        pure (rangeList (maybe_unwrap_token s db_channel_id)
          (maybe_unwrap_token e db_channel_id))
      | [t1] => do
        let v ← pyToInt? t1
        pure [maybe_unwrap_token v db_channel_id]
      | [] => none
    else parse_fallback (t0 :: rest) db_channel_id link_mode
  | [] => parse_fallback [] db_channel_id link_mode

end FileRequestHandler

/-- Claim C4: `parse_message_ids` resolves the accepted shapes —
`["get", m]` to the single unwrapped id, `["get", a, b]` to the inclusive
range between the unwrapped endpoints (ascending or descending as given,
covering exactly the integers in between); a candidate `v` with
`v >= abs(channel)` that is evenly divisible by `abs(channel)` unwraps to
`v / abs(channel)`, any other value passes through; and concretely
`["get","500"] → [500]`, `["get","500","503"] → [500,501,502,503]`, and
`500 * 1001234567890` unwraps back to `500` for channel `-1001234567890`. -/
theorem c4_parse_message_ids_spec :
    (∀ (db : Int) (t1 : String) (v : Int), FileRequestHandler.pyToInt? t1 = some v →
      FileRequestHandler.parse_message_ids ["get", t1] db false
        = some [FileRequestHandler.maybe_unwrap_token v db]) ∧
    (∀ (db : Int) (t1 t2 : String) (v w : Int),
      FileRequestHandler.pyToInt? t1 = some v →
      FileRequestHandler.pyToInt? t2 = some w →
      FileRequestHandler.parse_message_ids ["get", t1, t2] db false
        = some (FileRequestHandler.rangeList
            (FileRequestHandler.maybe_unwrap_token v db)
            (FileRequestHandler.maybe_unwrap_token w db))) ∧
    (∀ a b x : Int, x ∈ FileRequestHandler.rangeList a b ↔
      (min a b ≤ x ∧ x ≤ max a b)) ∧
    (∀ a b : Int, a ≤ b →
      List.Sorted (fun x y => x < y) (FileRequestHandler.rangeList a b)) ∧
    (∀ a b : Int, b < a →
      List.Sorted (fun x y => y < x) (FileRequestHandler.rangeList a b)) ∧
    (∀ v db : Int, db ≠ 0 →
      (((db.natAbs : Int) ≤ v ∧ (db.natAbs : Int) ∣ v) →
        FileRequestHandler.maybe_unwrap_token v db = v / (db.natAbs : Int)) ∧
      (¬((db.natAbs : Int) ≤ v ∧ (db.natAbs : Int) ∣ v) →
        FileRequestHandler.maybe_unwrap_token v db = v)) ∧
    FileRequestHandler.parse_message_ids ["get", "500"] (-1001234567890) false
      = some [500] ∧
    FileRequestHandler.parse_message_ids ["get", "500", "503"] (-1001234567890) false
      = some [500, 501, 502, 503] ∧
    FileRequestHandler.maybe_unwrap_token (500 * 1001234567890) (-1001234567890)
      = 500 := by
  refine ⟨?_, ?_, ?_, ?_, ?_, ?_, by decide, by decide, by decide⟩
  · intro db t1 v hp
    simp only [FileRequestHandler.parse_message_ids, if_neg (by decide :
      ¬(lowerStr "get" = "set")), if_pos (by decide : lowerStr "get" = "get"), hp]
    rfl
  · intro db t1 t2 v w hp hq
    simp only [FileRequestHandler.parse_message_ids, if_neg (by decide :
      ¬(lowerStr "get" = "set")), if_pos (by decide : lowerStr "get" = "get"),
      hp, hq]
    rfl
  · intro a b x
    by_cases hab : a ≤ b
    · rw [min_eq_left hab, max_eq_right hab]
      simp only [FileRequestHandler.rangeList, if_pos hab, List.mem_map,
        List.mem_range]
      constructor
      · rintro ⟨i, hi, rfl⟩
        omega
      · rintro ⟨h1, h2⟩
        exact ⟨(x - a).toNat, by omega, by omega⟩
    · have hba : b ≤ a := le_of_not_le hab
      rw [min_eq_right hba, max_eq_left hba]
      simp only [FileRequestHandler.rangeList, if_neg hab, List.mem_map,
        List.mem_range]
      constructor
      · rintro ⟨i, hi, rfl⟩
        omega
      · rintro ⟨h1, h2⟩
        exact ⟨(a - x).toNat, by omega, by omega⟩
  · intro a b hab
    simp only [FileRequestHandler.rangeList, if_pos hab]
    show List.Pairwise (fun x y => x < y) _
    rw [List.pairwise_map]
    refine (List.pairwise_lt_range _).imp ?_
    intro i j hij
    omega
  · intro a b hab
    simp only [FileRequestHandler.rangeList, if_neg (by omega : ¬(a ≤ b))]
    show List.Pairwise (fun x y => y < x) _
    rw [List.pairwise_map]
    refine (List.pairwise_lt_range _).imp ?_
    intro i j hij
    omega
  · intro v db hdb
    constructor
    · rintro ⟨hle, hdvd⟩
      have hmod : v % (db.natAbs : Int) = 0 := Int.emod_eq_zero_of_dvd hdvd
      unfold FileRequestHandler.maybe_unwrap_token
      rw [if_neg hdb]
      show (if (db.natAbs : Int) ≤ v ∧ v % (db.natAbs : Int) = 0
        then v / (db.natAbs : Int) else v) = v / (db.natAbs : Int)
      rw [if_pos ⟨hle, hmod⟩]
    · intro hcond
      unfold FileRequestHandler.maybe_unwrap_token
      rw [if_neg hdb]
      show (if (db.natAbs : Int) ≤ v ∧ v % (db.natAbs : Int) = 0
        then v / (db.natAbs : Int) else v) = v
      rw [if_neg ?_]
      rintro ⟨hle, hmod⟩
      exact hcond ⟨hle, Int.dvd_of_emod_eq_zero hmod⟩

/-- Witness for C4 at concrete inputs: the single-id law applied to
token "512" with channel 256 (512 unwraps to 2, since 512 ≥ 256 and
256 ∣ 512); the range law applied to "502","500" descending; the unwrap
law at a non-divisible value. -/
theorem c4_parse_message_ids_witness :
    FileRequestHandler.parse_message_ids ["get", "512"] 256 false = some [2] ∧
    FileRequestHandler.parse_message_ids ["get", "502", "500"] (-1001234567890) false
      = some [502, 501, 500] ∧
    FileRequestHandler.maybe_unwrap_token 511 256 = 511 := by
  refine ⟨?_, ?_, ?_⟩
  · have h := c4_parse_message_ids_spec.1 256 "512" 512 (by decide)
    rw [h]
    decide
  · have h := c4_parse_message_ids_spec.2.1 (-1001234567890) "502" "500" 502 500
      (by decide) (by decide)
    rw [h]
    decide
  · have h := (c4_parse_message_ids_spec.2.2.2.2.2.1 511 256 (by decide)).2
      (by decide)
    exact h

/-! ## `plugins/start.py` — the `/start` routing skeleton -/

namespace AccessManager

/-- `AccessManager.is_premium_user(user_id)` (plugins/start.py): delegates to
`PremiumManager.check_premium` and reads the `is_premium` flag (default
false); the check's expiry-sweep side effect accompanies the result. -/
def is_premium_user (now : Int) (s : PremiumSet) (user_id : Nat) :
    Bool × PremiumSet :=
  let c := PremiumManager.check_premium now s user_id
  (match c.1 with
   | .premiumActive _ _ _ _ _ _ => true
   | _ => false, c.2)

end AccessManager

/-- Everything after the first space: Python `text.split(" ", 1)[1]`; `none`
when there is no space (the handler silently returns on `IndexError`). -/
def afterFirstSpace : List Char → Option (List Char)
  | [] => none
  | c :: cs => if c = ' ' then some cs else afterFirstSpace cs

/-- Python `str.startswith(p)` over character lists. -/
def leadMatch : List Char → List Char → Bool
  | [], _ => true
  | _ :: _, [] => false
  | p :: ps, c :: cs => p = c && leadMatch ps cs

/-- Python `str.removeprefix(p)`. -/
def dropLead (p s : String) : String :=
  if leadMatch p.data s.data then String.mk (s.data.drop p.data.length) else s

/-- Python `str.split(sep)` for a single-character separator (used for the
`decoded_string.split("-")` argument split). -/
def splitChar (sep : Char) : List Char → List (List Char)
  | [] => [[]]
  | c :: cs =>
    match splitChar sep cs with
    | [] => [[c]]
    | h :: t => if c = sep then [] :: h :: t else (c :: h) :: t

/-- Python `s.split(sep)` returning strings. -/
def pySplit (s : String) (sep : Char) : List String :=
  (splitChar sep s.data).map (fun cs => String.mk cs)

/-- The terminal actions of `start_command` (plugins/start.py), plus the
force-subscribe prompt of the fallback handler `not_joined`. -/
inductive StartRoute where
  | welcome : StartRoute
  | ignored : StartRoute
  | tokenVerification : StartRoute
  | invalidLink : StartRoute
  | delivery : Bool → Bool → StartRoute
  | linkShortlink : Bool → StartRoute
  | sessionExpired : StartRoute
  | forceSubscribe : StartRoute
deriving DecidableEq, Repr

/-- The routing skeleton of `start_command` (plugins/start.py): a bare
`/start` (text length ≤ 7) shows the welcome card; a command without a space
returns silently; a `time_` payload goes to token verification; a decode
failure reports an invalid link.  Otherwise the stored `mode` variable
(falsy → the `"off"` default) is read, premium is checked FIRST and premium
users go straight to delivery; mode `"off"` delivers; mode `"link"` without a
`"set"` argument produces a shortlink; mode `"24"` with an invalid session
issues a verification link; anything else delivers.  `delivery link_mode
is_premium` carries `process_file_request`'s flags, `linkShortlink` carries
`handle_link_mode`'s `is_premium` argument.  The payload decoder
(`helper_func.decode`) is the injected oracle `dec`; the session-store read
of `check_session_validity` is the boolean `session_valid`. -/
def start_command_route (text : String) (dec : String → Option String)
    (stored_mode : String) (now : Int) (prem : PremiumSet) (user_id : Nat)
    (session_valid : Bool) : StartRoute :=
  if text.data.length ≤ 7 then .welcome
  else
    match afterFirstSpace text.data with
    | none => .ignored
    | some payload_chars =>
      if leadMatch "time_".data payload_chars then .tokenVerification
      else
        let cleaned := dropLead "time_" (dropLead "verify_" (String.mk payload_chars))
        match dec cleaned with
        | none => .invalidLink
        | some decoded_string =>
          let argument := pySplit decoded_string '-'
          let mode := if stored_mode = "" then "off" else stored_mode
          let is_premium := (AccessManager.is_premium_user now prem user_id).1
          if is_premium then .delivery (mode == "link") true
          else if mode == "off" then .delivery false false
          else if (mode == "link") && !(argument.contains "set") then
            .linkShortlink is_premium
          else if (mode == "24") && !session_valid then .sessionExpired
          else .delivery (mode == "link") false

/-- Handler dispatch for an incoming private `/start` (plugins/start.py):
`start_command` is registered with filters `~banUser & subscribed`, while the
force-subscribe handler `not_joined` is registered with `~banUser` only; so a
banned user reaches no handler, a subscribed user reaches `start_command`,
and an unsubscribed user falls through to the force-subscribe prompt —
`not_joined` never consults premium status. -/
def start_dispatch (banned subscribed : Bool) (text : String)
    (dec : String → Option String) (stored_mode : String) (now : Int)
    (prem : PremiumSet) (user_id : Nat) (session_valid : Bool) :
    Option StartRoute :=
  if banned then none
  else if subscribed then
    some (start_command_route text dec stored_mode now prem user_id session_valid)
  else some .forceSubscribe

/-- Claim C2 counterexample: the claim says a premium requester skips *every*
gating step, force-subscription included.  Here user 111 holds a non-expired
premium record (expiry 1000 at time 0) and sends a well-formed deep link, but
is not subscribed to the forced channels: dispatch routes the request to the
force-subscribe prompt, not to delivery — the fallback handler never checks
premium. -/
theorem c2_premium_bypass_counterexample :
    (AccessManager.is_premium_user 0 [("111", ⟨1000, 1, 0, 1000⟩)] 111).1 = true ∧
    start_dispatch false false "/start abcdef"
      (fun x => if x = "abcdef" then some "get-500" else none) "24" 0
      [("111", ⟨1000, 1, 0, 1000⟩)] 111 false
      = some .forceSubscribe ∧
    (∀ lm ip : Bool, (StartRoute.forceSubscribe : StartRoute) ≠ .delivery lm ip) := by
  refine ⟨by decide, by decide, by decide⟩

/-- Claim C2 (amended): once a request passes the subscription filter and
reaches `start_command`, a requester holding a non-expired premium record
skips token/shortlink verification entirely and proceeds directly to
delivery, even when the stored mode is "24" and the session is expired (the
conclusion does not depend on `session_valid` or the mode); force-
subscription, however, is enforced by the separate fallback handler for
unsubscribed users regardless of premium. -/
theorem c2_premium_bypass_amended (text : String) (dec : String → Option String)
    (stored_mode : String) (now : Int) (prem : PremiumSet) (u : Nat)
    (session_valid : Bool) (pcs : List Char) (d : String) (r : PremRecord)
    (hlen : ¬(text.data.length ≤ 7))
    (hsp : afterFirstSpace text.data = some pcs)
    (hnt : leadMatch "time_".data pcs = false)
    (hdec : dec (dropLead "time_" (dropLead "verify_" (String.mk pcs))) = some d)
    (hr : prem.lookup (toString u) = some r)
    (hexp : ¬(r.expiry < now)) :
    start_dispatch false true text dec stored_mode now prem u session_valid
      = some (.delivery ((if stored_mode = "" then "off" else stored_mode) == "link")
          true) := by
  have hprem : (AccessManager.is_premium_user now prem u).1 = true := by
    simp [AccessManager.is_premium_user, PremiumManager.check_premium, hr, hexp]
  show some (start_command_route text dec stored_mode now prem u session_valid) = _
  simp only [start_command_route, if_neg hlen, hsp, hnt, Bool.false_eq_true,
    if_false, hdec, hprem, if_true]

/-- Witness for the amended C2: the counterexample's premium user, now
subscribed, with mode "24" and an expired session, is routed straight to
delivery. -/
theorem c2_premium_bypass_witness :
    start_dispatch false true "/start abcdef"
      (fun x => if x = "abcdef" then some "get-500" else none) "24" 0
      [("111", ⟨1000, 1, 0, 1000⟩)] 111 false
      = some (.delivery false true) := by
  have h := c2_premium_bypass_amended "/start abcdef"
    (fun x => if x = "abcdef" then some "get-500" else none) "24" 0
    [("111", ⟨1000, 1, 0, 1000⟩)] 111 false "abcdef".data "get-500"
    ⟨1000, 1, 0, 1000⟩ (by decide) (by decide) (by decide) (by decide)
    (by decide) (by decide)
  rw [h]
  decide

/-! ## `plugins/prem.py` — `get_all_premium_users` (the lazy sweep) -/

/-- Python `int(user_id_str)` over the premium map's keys.  The canonical
keys written by the manager are `str(user_id)` for a non-negative Telegram
id, i.e. non-empty runs of decimal digits; any other key raises inside the
per-entry `try` and is skipped. -/
def parseKey (s : String) : Option Nat :=
  if s.data ≠ [] ∧ s.data.all Char.isDigit then some (digitsVal s.data) else none

theorem parseKey_toString (u : Nat) : parseKey (toString u) = some u := by
  have ht : (toString u : String) = Nat.repr u := rfl
  unfold parseKey
  rw [ht]
  have h1 : (Nat.repr u).data ≠ [] := repr_data_ne_nil u
  have h2 : (Nat.repr u).data.all Char.isDigit = true := by
    rw [List.all_eq_true]
    exact fun c hc => (repr_data_digits u c hc).1
  rw [if_pos ⟨h1, h2⟩, digitsVal_repr]

theorem toString_nat_injective {u v : Nat} (h : (toString u : String) = toString v) :
    u = v := by
  have hu := parseKey_toString u
  rw [h, parseKey_toString v] at hu
  exact (Option.some.inj hu).symm

/-- One enriched entry of `get_all_premium_users`' return list — the same
shape as `check_premium`'s success payload plus the user id. -/
structure PremiumUserEntry where
  user_id : Nat
  expiry_date : Int
  days_left : Int
  hours_left : Int
  added_by : Nat
  added_at : Int
  duration_seconds : Int
deriving DecidableEq, Repr

/-- The per-record enrichment performed by `get_all_premium_users` — the
identical `days_left`/`hours_left` arithmetic of `check_premium`. -/
def enrichUser (uid : Nat) (r : PremRecord) (now : Int) : PremiumUserEntry :=
  ⟨uid, r.expiry, (r.expiry - now) / 86400, (r.expiry - now) % 86400 / 3600,
   r.added_by, r.added_at, r.duration_seconds⟩

/-- The loop of `get_all_premium_users` over `premium_set.items()`: an entry
whose key fails `int()` is skipped (the per-entry `except: continue`); an
entry with `expiry < now` is bucketed into `expired_users`; a live entry is
enriched and appended.  Both output lists keep iteration order. -/
def sweepPartition (now : Int) : List (String × PremRecord) →
    List PremiumUserEntry × List Nat
  | [] => ([], [])
  | (k, r) :: rest =>
    match parseKey k with
    | none => sweepPartition now rest
    | some uid =>
      let p := sweepPartition now rest
      if r.expiry < now then (p.1, uid :: p.2)
      else (enrichUser uid r now :: p.1, p.2)

namespace PremiumManager

/-- `PremiumManager.get_all_premium_users()` at time `now` over map `s`:
iterate the map partitioning live and expired entries, then call
`remove_premium` for each expired user in turn (each call re-reads the
then-current map and saves it), returning the enriched live list together
with the final stored map. -/
def get_all_premium_users (now : Int) (s : PremiumSet) :
    List PremiumUserEntry × PremiumSet :=
  let p := sweepPartition now s
  (p.1, p.2.foldl (fun st uid => (remove_premium st uid).2) s)

end PremiumManager

theorem remove_premium_state (st : PremiumSet) (u : Nat) :
    (PremiumManager.remove_premium st u).2 = delKey st (toString u) := by
  unfold PremiumManager.remove_premium
  cases h : st.lookup (toString u) with
  | none =>
    simp only [h]
    exact (delKey_of_lookup_none st _ h).symm
  | some r => simp only [h]

theorem foldl_remove_eq_filter (ids : List Nat) (st : PremiumSet) :
    ids.foldl (fun s uid => (PremiumManager.remove_premium s uid).2) st
      = st.filter (fun p => !((ids.map (fun uid => (toString uid : String))).contains p.1)) := by
  induction ids generalizing st with
  | nil => simp
  | cons uid ids ih =>
    simp only [List.foldl_cons]
    rw [remove_premium_state st uid, ih]
    unfold delKey
    rw [List.filter_filter]
    apply List.filter_congr
    intro p hp
    simp only [List.map_cons, List.contains_cons, Bool.not_or, bne]
    exact Bool.and_comm _ _

theorem contains_iff_mem_str {l : List String} {x : String} :
    l.contains x = true ↔ x ∈ l := by
  induction l with
  | nil => simp
  | cons a t ih => simp [List.contains_cons, ih]

theorem sweepPartition_snd (now : Int) (s : List (String × PremRecord)) :
    (sweepPartition now s).2 = s.filterMap (fun p =>
      match parseKey p.1 with
      | none => none
      | some uid => if p.2.expiry < now then some uid else none) := by
  induction s with
  | nil => rfl
  | cons p rest ih =>
    obtain ⟨k, r⟩ := p
    simp only [sweepPartition, List.filterMap_cons]
    cases hk : parseKey k with
    | none => simpa [hk] using ih
    | some uid =>
      by_cases he : r.expiry < now
      · simp [hk, he, ih]
      · simp [hk, he, ih]

theorem sweepPartition_fst (now : Int) (s : List (String × PremRecord)) :
    (sweepPartition now s).1 = s.filterMap (fun p =>
      match parseKey p.1 with
      | none => none
      | some uid =>
        if p.2.expiry < now then none else some (enrichUser uid p.2 now)) := by
  induction s with
  | nil => rfl
  | cons p rest ih =>
    obtain ⟨k, r⟩ := p
    simp only [sweepPartition, List.filterMap_cons]
    cases hk : parseKey k with
    | none => simpa [hk] using ih
    | some uid =>
      by_cases he : r.expiry < now
      · simp [hk, he, ih]
      · simp [hk, he, ih]

theorem nodup_key_eq {β : Type} {s : List (String × β)}
    (hnd : (s.map Prod.fst).Nodup) {p q : String × β}
    (hp : p ∈ s) (hq : q ∈ s) (h : p.1 = q.1) : p = q := by
  induction s with
  | nil => cases hp
  | cons a t ih =>
    simp only [List.map_cons, List.nodup_cons] at hnd
    rcases List.mem_cons.mp hp with hpa | hp'
    · rcases List.mem_cons.mp hq with hqa | hq'
      · rw [hpa, hqa]
      · exfalso
        apply hnd.1
        rw [hpa] at h
        rw [h]
        exact List.mem_map_of_mem Prod.fst hq'
    · rcases List.mem_cons.mp hq with hqa | hq'
      · exfalso
        apply hnd.1
        rw [hqa] at h
        rw [← h]
        exact List.mem_map_of_mem Prod.fst hp'
      · exact ih hnd.2 hp' hq'

theorem live_filterMap_eq_filter_map (now : Int)
    (s : List (String × PremRecord))
    (hkeys : ∀ p ∈ s, ∃ u : Nat, p.1 = (toString u : String)) :
    s.filterMap (fun p =>
      match parseKey p.1 with
      | none => none
      | some uid =>
        if p.2.expiry < now then none else some (enrichUser uid p.2 now))
    = (s.filter (fun p => !decide (p.2.expiry < now))).map
        (fun p => enrichUser ((parseKey p.1).getD 0) p.2 now) := by
  induction s with
  | nil => rfl
  | cons p rest ih =>
    obtain ⟨u, hu⟩ := hkeys p (by simp)
    have hrest : ∀ q ∈ rest, ∃ u : Nat, q.1 = (toString u : String) :=
      fun q hq => hkeys q (List.mem_cons_of_mem p hq)
    have hk : parseKey p.1 = some u := by rw [hu, parseKey_toString]
    simp only [List.filterMap_cons, List.filter_cons, hk]
    by_cases he : p.2.expiry < now
    · simp only [he, if_true, decide_eq_true he, Bool.not_true,
        Bool.false_eq_true, if_false]
      exact ih hrest
    · simp only [he, if_false, decide_eq_false he, decide_False, Bool.not_false,
        if_true, List.map_cons, hk, Option.getD_some]
      rw [ih hrest]

/-- Claim C6: after `get_all_premium_users` returns, the persisted premium
map is exactly the sub-map of records whose expiry is at or after the
sweep's reference time — no expired record remains — and the returned list
is exactly those surviving records, enriched with the same
`days_left`/`hours_left`/metadata fields as `check_premium`'s success
payload.  The hypotheses say the map is well-formed: its keys are the
stringified user ids the manager writes, pairwise distinct (a Python dict
cannot hold duplicate keys). -/
theorem c6_get_all_premium_users_spec (now : Int) (s : PremiumSet)
    (hkeys : ∀ p ∈ s, ∃ u : Nat, p.1 = (toString u : String))
    (hnd : (s.map Prod.fst).Nodup) :
    (PremiumManager.get_all_premium_users now s).2
      = s.filter (fun p => !decide (p.2.expiry < now)) ∧
    (∀ q ∈ (PremiumManager.get_all_premium_users now s).2,
      ¬(q.2.expiry < now)) ∧
    (PremiumManager.get_all_premium_users now s).1
      = (s.filter (fun p => !decide (p.2.expiry < now))).map
          (fun p => enrichUser ((parseKey p.1).getD 0) p.2 now) := by
  have hunf2 : (PremiumManager.get_all_premium_users now s).2
      = (sweepPartition now s).2.foldl
          (fun st uid => (PremiumManager.remove_premium st uid).2) s := rfl
  have hstate : (PremiumManager.get_all_premium_users now s).2
      = s.filter (fun p => !decide (p.2.expiry < now)) := by
    rw [hunf2, foldl_remove_eq_filter]
    apply List.filter_congr
    intro p hp
    obtain ⟨u, hu⟩ := hkeys p hp
    have key_eq : ((sweepPartition now s).2.map
        (fun uid => (toString uid : String))).contains p.1
        = decide (p.2.expiry < now) := by
      by_cases he : p.2.expiry < now
      · rw [decide_eq_true he]
        apply contains_iff_mem_str.mpr
        have hin : u ∈ (sweepPartition now s).2 := by
          rw [sweepPartition_snd]
          refine List.mem_filterMap.mpr ⟨p, hp, ?_⟩
          rw [hu, parseKey_toString]
          simp [he]
        rw [hu]
        exact List.mem_map_of_mem _ hin
      · rw [decide_eq_false he]
        apply Bool.eq_false_iff.mpr
        intro hc
        obtain ⟨u', hin', hstr⟩ := List.mem_map.mp (contains_iff_mem_str.mp hc)
        rw [sweepPartition_snd] at hin'
        obtain ⟨q, hq, hfq⟩ := List.mem_filterMap.mp hin'
        obtain ⟨v, hv⟩ := hkeys q hq
        rw [hv, parseKey_toString] at hfq
        by_cases hqe : q.2.expiry < now
        · simp only [hqe, if_true, Option.some.injEq] at hfq
          have hq1 : q.1 = p.1 := by rw [hv, hfq, hstr]
          have hqp : q = p := nodup_key_eq hnd hq hp hq1
          rw [hqp] at hqe
          exact he hqe
        · simp [hqe] at hfq
    rw [key_eq]
  refine ⟨hstate, ?_, ?_⟩
  · intro q hqmem
    rw [hstate] at hqmem
    have := List.of_mem_filter hqmem
    simpa using this
  · have hunf1 : (PremiumManager.get_all_premium_users now s).1
        = (sweepPartition now s).1 := rfl
    rw [hunf1, sweepPartition_fst]
    exact live_filterMap_eq_filter_map now s hkeys

/-- Witness for C6 at a concrete map at time 100: user 7's record expired at
50 and is purged, user 9's record (expiry 97300) survives and is returned
enriched with 1 day and 3 hours left. -/
theorem c6_get_all_premium_users_witness :
    (PremiumManager.get_all_premium_users 100
        [("7", ⟨50, 1, 0, 50⟩), ("9", ⟨97300, 2, 10, 300⟩)]).2
      = [("9", ⟨97300, 2, 10, 300⟩)] ∧
    (PremiumManager.get_all_premium_users 100
        [("7", ⟨50, 1, 0, 50⟩), ("9", ⟨97300, 2, 10, 300⟩)]).1
      = [⟨9, 97300, 1, 3, 2, 10, 300⟩] := by
  have h := c6_get_all_premium_users_spec 100
    [("7", ⟨50, 1, 0, 50⟩), ("9", ⟨97300, 2, 10, 300⟩)]
    (by
      intro p hp
      rcases List.mem_cons.mp hp with rfl | hp'
      · exact ⟨7, rfl⟩
      · rcases List.mem_cons.mp hp' with rfl | hp''
        · exact ⟨9, rfl⟩
        · cases hp'')
    (by decide)
  refine ⟨?_, ?_⟩
  · rw [h.1]
    decide
  · rw [h.2.2]
    decide
